import Mathlib

/-!
Shallow embedding of the Renkforce AOK-5055 weather-station decoder
(src/devices/renkforce_aok5055.c).  A bit row is modelled the way the
rtl_433 bitbuffer stores it: a list of bytes together with the number of
valid bits, where bit i of the row is bit 7 - (i mod 8) of byte i / 8.  The
bitbuffer helper functions (invert, search, extract) belong to the
surrounding rtl_433 library and are not present under src/; they are
modelled from the spec as noted on each definition.  All other definitions
are direct translations of the C source.
-/

/-- The length of a message in bytes (C macro AOK5055_MESSAGE_LEN). -/
def AOK5055_MESSAGE_LEN : Nat := 12

/-- The length of the preamble in bits (C macro AOK5055_MESSAGE_PREAMBLELEN). -/
def AOK5055_MESSAGE_PREAMBLELEN : Nat := 3 * 8

/-- How often the message needs to be repeated (C macro AOK5055_MINREPEATS). -/
def AOK5055_MINREPEATS : Nat := 4

/-- Millimeters of rain per counter step; the C macro is the literal 0.75,
represented exactly as the rational 3/4. -/
def AOK5055_MILLIMETER_PER_STEP : ℚ := 3 / 4

/-- The preamble bytes of the message, nibbles 0xaaa598 (C array preamble). -/
def preamble : List Nat := [0xaa, 0xa5, 0x98]

/-- Lookup table converting the direction nibble to a compass label
(C array direction_lookup, including the space padding of the char arrays). -/
def direction_lookup : List String :=
  ["  N", "NNO", " NO", "ONO", "  O", "OSO", " SO", "SSO",
   "  S", "SSW", "SWW", " SW", "  W", "WNW", " NW", "NNW"]

/-- One row of demodulated bits as the bitbuffer stores it: packed bytes
plus the count of valid bits. -/
structure Bitrow where
  data : List Nat
  bits : Nat
deriving DecidableEq

/-- Bit i of a row, most significant bit of each byte first, exactly as the
C macro expansion bb[i >> 3] >> (7 - (i & 7)) & 1 reads it. -/
def getBit (b : Bitrow) (i : Nat) : Bool :=
  (b.data.getD (i / 8) 0).testBit (7 - i % 8)

/-- Modelled from the spec: the in-place polarity inversion performed by the
library function bitbuffer_invert (not under src/): every bit of the capture
is flipped exactly once (each stored byte is complemented). -/
def bitbuffer_invert (b : Bitrow) : Bitrow :=
  Bitrow.mk (b.data.map fun x => x ^^^ 0xFF) b.bits

/-- Bits of one byte, most significant bit first. -/
def byteBits (b : Nat) : List Bool :=
  (List.range 8).map fun j => b.testBit (7 - j)

/-- Bit sequence of a byte list, each byte most significant bit first. -/
def bytesToBits (bs : List Nat) : List Bool :=
  (bs.map byteBits).flatten

/-- Whether the pattern pat occurs in the row starting at bit position i.
The match requires the whole pattern to lie inside the valid bits and every
pattern bit to agree. -/
def matchAt (b : Bitrow) (pat : List Bool) (i : Nat) : Bool :=
  decide (i + pat.length ≤ b.bits) &&
    (List.range pat.length).all fun j => getBit b (i + j) == pat.getD j false

/-- Fuel-driven left-to-right scan used by the search: returns the first
position at or after i where the pattern matches, or the bit count of the
row when no position matches.  The fuel only bounds the recursion and is
always supplied large enough to reach the end of the row. -/
def searchGo (b : Bitrow) (pat : List Bool) : Nat → Nat → Nat
  | 0, _ => b.bits
  | fuel + 1, i =>
    if b.bits ≤ i then b.bits
    else if matchAt b pat i then i else searchGo b pat fuel (i + 1)

/-- Modelled from the spec: the library function bitbuffer_search (not under
src/) scans left to right for the first occurrence of the given pattern
(patBits bits of the pattern bytes) and returns the earliest matching bit
offset, or the bit count of the row when the pattern does not occur. -/
def bitbuffer_search (b : Bitrow) (patBytes : List Nat) (patBits : Nat) : Nat :=
  searchGo b ((bytesToBits patBytes).take patBits) (b.bits + 1) 0

/-- Numeric value of one bit. -/
def bit2nat (b : Bool) : Nat := if b then 1 else 0

/-- Modelled from the spec: one byte of the bulk bit extraction, packing the
8 consecutive bits starting at bit offset off, most significant bit first. -/
def extractByte (b : Bitrow) (off : Nat) : Nat :=
  128 * bit2nat (getBit b off) + 64 * bit2nat (getBit b (off + 1)) +
    32 * bit2nat (getBit b (off + 2)) + 16 * bit2nat (getBit b (off + 3)) +
    8 * bit2nat (getBit b (off + 4)) + 4 * bit2nat (getBit b (off + 5)) +
    2 * bit2nat (getBit b (off + 6)) + bit2nat (getBit b (off + 7))

/-- Modelled from the spec: the library function bitbuffer_extract_bytes
(not under src/) reads lenBits bits starting at bit position pos and packs
them into byte-aligned output regardless of the source alignment.  The
decoder only uses it with a bit count divisible by 8. -/
def bitbuffer_extract_bytes (b : Bitrow) (pos : Nat) (lenBits : Nat) : List Nat :=
  (List.range (lenBits / 8)).map fun k => extractByte b (pos + 8 * k)

/-- Uppercase hexadecimal digit characters used by bytes_tohex. -/
def hexDigit (n : Nat) : Char := "0123456789ABCDEF".toList.getD n '0'

/-- A single store into the output buffer, modelled as a function update. -/
def bufSet (f : Nat → Char) (i : Nat) (c : Char) : Nat → Char :=
  fun j => if j = i then c else f j

/-- One iteration of the bytes_tohex loop body: writes the two hex digits of
input byte k and a colon at output offsets 3k, 3k+1, 3k+2. -/
def tohexStep (inp : List Nat) (buf : Nat → Char) (k : Nat) : Nat → Char :=
  bufSet
    (bufSet (bufSet buf (3 * k) (hexDigit ((inp.getD k 0 >>> 4) &&& 0xF)))
      (3 * k + 1) (hexDigit (inp.getD k 0 &&& 0xF)))
    (3 * k + 2) ':'

/-- The loop of bytes_tohex: iterates k over the input bytes, writing three
characters per byte, and stops (after the writes of the current iteration)
as soon as the next output offset 3k+3 would exceed outsz, mirroring the
guard placement of the C source.  Returns the buffer together with the final
value of pout - out.  The fuel only bounds the recursion. -/
def tohexGo (inp : List Nat) (insz outsz : Nat) : Nat → Nat → (Nat → Char) → ((Nat → Char) × Nat)
  | 0, k, buf => (buf, 3 * k)
  | fuel + 1, k, buf =>
    if k < insz then
      let buf2 := tohexStep inp buf k
      if 3 * k + 3 > outsz then (buf2, 3 * k)
      else tohexGo inp insz outsz fuel (k + 1) buf2
    else (buf, 3 * k)

/-- Translation of the C function bytes_tohex: renders insz input bytes as
colon-separated uppercase hex pairs into a buffer, truncating via the outsz
guard, then overwrites the character before the final write position with a
NUL terminator.  The resulting C string is the character sequence up to the
first NUL.  (For the decoder's call the writes of the final iteration land
at offsets 36 to 38, past the NUL, so they never appear in the string.) -/
def bytes_tohex (inp : List Nat) (insz outsz : Nat) : String :=
  let res := tohexGo inp insz outsz (insz + 1) 0 (fun _ => '?')
  let final := bufSet res.1 (res.2 - 1) (Char.ofNat 0)
  String.mk (((List.range (outsz + 2)).map final).takeWhile fun c => c != Char.ofNat 0)

/-- The structured record emitted through data_make / decoder_output_data on
a successful decode (C lines 131 to 143), field for field. -/
structure Reading where
  model : String
  temperature : ℚ
  humidity : Nat
  wind_direction : String
  wind_degrees : ℚ
  wind_speed : Nat
  rain_volume : ℚ
  battery : String
  raw : String
deriving DecidableEq

/-- Field decoding of frame 0 (C lines 119 to 141): every mask, shift and
scale is taken verbatim from the source; the float and double scalings are
represented exactly over the rationals. -/
def make_reading (bytes : List Nat) : Reading :=
  let humidity := bytes.getD 6 0
  let temperature_c := ((bytes.getD 4 0 &&& 0x0f) <<< 8) ||| bytes.getD 5 0
  let rain_steps := (bytes.getD 7 0 <<< 4) ||| (bytes.getD 8 0 >>> 4)
  let temperature : ℚ := (temperature_c : ℚ) / 10
  let wind_speed := ((bytes.getD 8 0 &&& 0x0f) <<< 8) ||| (bytes.getD 9 0 >>> 4)
  let rain_mm : ℚ := (rain_steps : ℚ) * AOK5055_MILLIMETER_PER_STEP
  let wind_direction := bytes.getD 9 0 &&& 0x0f
  let wind_degrees : ℚ := (wind_direction : ℚ) * (45 / 2)
  let battery := (bytes.getD 4 0 &&& 0xf0) == 0xf0
  { model := "Renkforce AOK5055"
    temperature := temperature
    humidity := humidity
    wind_direction := direction_lookup.getD wind_direction ""
    wind_degrees := wind_degrees
    wind_speed := wind_speed
    rain_volume := rain_mm
    battery := if battery then "LOW" else "OK"
    raw := bytes_tohex bytes 18 37 }

/-- The consensus loop of the callback (C lines 111 to 117): every byte
position except the last one of a frame must agree between frame 0 and every
repeat 1 to AOK5055_MINREPEATS - 1. -/
def consensus_check (bytes : List Nat) : Bool :=
  (List.range (AOK5055_MESSAGE_LEN - 1)).all fun position =>
    (List.range (AOK5055_MINREPEATS - 1)).all fun rep =>
      bytes.getD position 0 == bytes.getD (position + AOK5055_MESSAGE_LEN * (rep + 1)) 0

/-- Outcome of one decode attempt.  The C callback returns the int 0 on all
three failure paths and 1 after emitting the data record; the constructors
record which return site was taken, and success carries the emitted Reading
(no Reading exists on any failure path). -/
inductive DecodeResult where
  | preambleNotFound
  | insufficientData
  | repeatMismatch
  | success (r : Reading)
deriving DecidableEq

/-- The int value the C callback returns for a given outcome. -/
def DecodeResult.toInt : DecodeResult → Int
  | .success _ => 1
  | _ => 0

/-- Whether an outcome emitted a Reading. -/
def DecodeResult.isSuccess : DecodeResult → Bool
  | .success _ => true
  | _ => false

/-- The aligned packet bytes the callback works on: 4 frames of 12 bytes
extracted at the bit offset where the preamble was found. -/
def aligned_bytes (b : Bitrow) : List Nat :=
  bitbuffer_extract_bytes b
    (bitbuffer_search b preamble AOK5055_MESSAGE_PREAMBLELEN)
    (AOK5055_MESSAGE_LEN * 8 * AOK5055_MINREPEATS)

/-- The part of renkforce_aok5055_callback after the in-place inversion
(C lines 92 to 144), acting on the already inverted bit row: preamble
search, length check, extraction, consensus check and field decode. -/
def renkforce_aok5055_decode (b : Bitrow) : DecodeResult :=
  let bitpos := bitbuffer_search b preamble AOK5055_MESSAGE_PREAMBLELEN
  if bitpos = b.bits then .preambleNotFound
  else if bitpos + AOK5055_MINREPEATS * AOK5055_MESSAGE_LEN * 8 > b.bits then
    .insufficientData
  else
    let bytes := aligned_bytes b
    if consensus_check bytes then .success (make_reading bytes) else .repeatMismatch

/-- Translation of renkforce_aok5055_callback (C lines 82 to 145): the
callback first inverts the bitbuffer in place and then decodes the inverted
row; the returned pair is the state of the caller-owned bitbuffer after the
call together with the outcome. -/
def renkforce_aok5055_callback (b : Bitrow) : Bitrow × DecodeResult :=
  let inv := bitbuffer_invert b
  (inv, renkforce_aok5055_decode inv)

/-- Spec-side rendering of bytes, following the spec's words for the raw
field: the bytes rendered as uppercase hexadecimal byte pairs separated by
colons.  Used only as the comparison point for the raw string claim. -/
def spec_hex_render (bs : List Nat) : String :=
  String.mk (((bs.map fun b => [hexDigit (b / 16), hexDigit (b % 16)]).intersperse [':']).flatten)

/-- Spec-side direction table, following the spec's words: the 16 compass
labels in order, without the character-array padding of the C table. -/
def spec_direction_table : List String :=
  ["N", "NNO", "NO", "ONO", "O", "OSO", "SO", "SSO",
   "S", "SSW", "SWW", "SW", "W", "WNW", "NW", "NNW"]

/-- Label with the space padding of the C char arrays removed. -/
def stripSpaces (s : String) : String := String.mk (s.toList.filter fun c => c ≠ ' ')

/-- Example frame from the C source comment: aaa5980f00905305e02da380. -/
def frame_ex : List Nat :=
  [0xaa, 0xa5, 0x98, 0x0f, 0x00, 0x90, 0x53, 0x05, 0xe0, 0x2d, 0xa3, 0x80]

/-- A well-formed capture in transmit polarity: the complement of the
example frame repeated 4 times, 384 bits (the callback's in-place inversion
restores the documented bytes). -/
def capture_good : Bitrow :=
  Bitrow.mk
  [0x55, 0x5a, 0x67, 0xf0, 0xff, 0x6f, 0xac, 0xfa, 0x1f, 0xd2, 0x5c, 0x7f,
   0x55, 0x5a, 0x67, 0xf0, 0xff, 0x6f, 0xac, 0xfa, 0x1f, 0xd2, 0x5c, 0x7f,
   0x55, 0x5a, 0x67, 0xf0, 0xff, 0x6f, 0xac, 0xfa, 0x1f, 0xd2, 0x5c, 0x7f,
   0x55, 0x5a, 0x67, 0xf0, 0xff, 0x6f, 0xac, 0xfa, 0x1f, 0xd2, 0x5c, 0x7f]
  384

/-- The Reading decoded from capture_good. -/
def reading_good : Reading := make_reading (aligned_bytes (bitbuffer_invert capture_good))

/-- capture_good with the trailing pause byte of each of the 4 frames
changed to the distinct values 0x13, 0x37, 0xab, 0xcd (stored inverted). -/
def capture_good_tails : Bitrow :=
  Bitrow.mk
  [0x55, 0x5a, 0x67, 0xf0, 0xff, 0x6f, 0xac, 0xfa, 0x1f, 0xd2, 0x5c, 0xec,
   0x55, 0x5a, 0x67, 0xf0, 0xff, 0x6f, 0xac, 0xfa, 0x1f, 0xd2, 0x5c, 0xc8,
   0x55, 0x5a, 0x67, 0xf0, 0xff, 0x6f, 0xac, 0xfa, 0x1f, 0xd2, 0x5c, 0x54,
   0x55, 0x5a, 0x67, 0xf0, 0xff, 0x6f, 0xac, 0xfa, 0x1f, 0xd2, 0x5c, 0x32]
  384

/-- A corrupted capture: byte 3 of repeat 2 is 0x1f instead of 0x0f. -/
def capture_mismatch : Bitrow :=
  Bitrow.mk
  [0x55, 0x5a, 0x67, 0xf0, 0xff, 0x6f, 0xac, 0xfa, 0x1f, 0xd2, 0x5c, 0x7f,
   0x55, 0x5a, 0x67, 0xf0, 0xff, 0x6f, 0xac, 0xfa, 0x1f, 0xd2, 0x5c, 0x7f,
   0x55, 0x5a, 0x67, 0xe0, 0xff, 0x6f, 0xac, 0xfa, 0x1f, 0xd2, 0x5c, 0x7f,
   0x55, 0x5a, 0x67, 0xf0, 0xff, 0x6f, 0xac, 0xfa, 0x1f, 0xd2, 0x5c, 0x7f]
  384

/-- A truncated capture: only 3 of the 4 required repeats are present. -/
def capture_short : Bitrow :=
  Bitrow.mk
  [0x55, 0x5a, 0x67, 0xf0, 0xff, 0x6f, 0xac, 0xfa, 0x1f, 0xd2, 0x5c, 0x7f,
   0x55, 0x5a, 0x67, 0xf0, 0xff, 0x6f, 0xac, 0xfa, 0x1f, 0xd2, 0x5c, 0x7f,
   0x55, 0x5a, 0x67, 0xf0, 0xff, 0x6f, 0xac, 0xfa, 0x1f, 0xd2, 0x5c, 0x7f]
  288

/-- A capture whose inversion contains no preamble at all (30 bits of
all-zero payload, stored as complemented bytes). -/
def capture_nopre : Bitrow := Bitrow.mk [0xff, 0xff, 0xff, 0xff] 30

/-- A capture whose inversion contains the preamble starting at bit 8. -/
def capture_at8 : Bitrow :=
  Bitrow.mk [0xff, 0x55, 0x5a, 0x67, 0xff] 40

/-! Basic facts about inversion, extraction and pattern matching. -/

/-- Inversion preserves the bit count of the row. -/
lemma bitbuffer_invert_bits (b : Bitrow) : (bitbuffer_invert b).bits = b.bits := rfl

/-- Inversion preserves the byte count of the row. -/
lemma bitbuffer_invert_data_length (b : Bitrow) :
    (bitbuffer_invert b).data.length = b.data.length := by
  simp [bitbuffer_invert]

/-- Defaulted element access through a map, inside the list. -/
lemma getD_map_lt (l : List Nat) (f : Nat → Nat) (n : Nat) (h : n < l.length) :
    (l.map f).getD n 0 = f (l.getD n 0) := by
  rw [List.getD_eq_getElem (l := l.map f) (d := 0) (by simpa using h),
    List.getD_eq_getElem (l := l) (d := 0) h, List.getElem_map]

/-- Reading past the end of a list yields the default. -/
lemma getD_oob {α : Type} (l : List α) (i : Nat) (d : α) (h : l.length ≤ i) :
    l.getD i d = d :=
  List.getD_eq_default l d h

/-- A bit past the stored bytes of a row reads as zero. -/
lemma getBit_oob (b : Bitrow) (i : Nat) (h : 8 * b.data.length ≤ i) :
    getBit b i = false := by
  unfold getBit
  rw [getD_oob _ _ _ (by omega)]
  exact Nat.zero_testBit _

/-- Inversion flips every stored bit of the row exactly once. -/
lemma getBit_invert (b : Bitrow) (i : Nat) (h : i < 8 * b.data.length) :
    getBit (bitbuffer_invert b) i = !(getBit b i) := by
  show ((b.data.map fun x => x ^^^ 0xFF).getD (i / 8) 0).testBit (7 - i % 8) = _
  rw [getD_map_lt _ _ _ (by omega), Nat.testBit_xor]
  have h8 : 7 - i % 8 < 8 := by omega
  have h255 : (0xFF : Nat).testBit (7 - i % 8) = true := by
    revert h8
    generalize 7 - i % 8 = k
    intro h8
    interval_cases k <;> decide
  rw [h255]
  show _ = !(b.data.getD (i / 8) 0).testBit (7 - i % 8)
  cases (b.data.getD (i / 8) 0).testBit (7 - i % 8) <;> rfl

/-- Inverting twice restores the original row. -/
lemma bitbuffer_invert_invert (b : Bitrow) : bitbuffer_invert (bitbuffer_invert b) = b := by
  unfold bitbuffer_invert
  cases b with
  | mk data bits =>
    simp only [List.map_map, Bitrow.mk.injEq, and_true]
    have : ((fun x => x ^^^ 0xFF) ∘ fun x => x ^^^ 0xFF) = id := by
      funext x
      simp [Function.comp, Nat.xor_assoc]
    rw [this, List.map_id]

/-- Defaulted element access of a range list. -/
lemma getD_range (n k : Nat) (h : k < n) : (List.range n).getD k 0 = k := by
  rw [List.getD_eq_getElem (l := List.range n) (d := 0) (by simpa using h), List.getElem_range]

/-- Element access of the extracted byte list. -/
lemma extract_getD (b : Bitrow) (pos lenBits k : Nat) (h : k < lenBits / 8) :
    (bitbuffer_extract_bytes b pos lenBits).getD k 0 = extractByte b (pos + 8 * k) := by
  unfold bitbuffer_extract_bytes
  rw [getD_map_lt _ _ _ (by simpa using h), getD_range _ _ h]

/-- Every extracted byte is below 256. -/
lemma extractByte_lt (b : Bitrow) (off : Nat) : extractByte b off < 256 := by
  unfold extractByte
  have h : ∀ x : Bool, bit2nat x ≤ 1 := by intro x; cases x <;> simp [bit2nat]
  have h0 := h (getBit b off)
  have h1 := h (getBit b (off + 1))
  have h2 := h (getBit b (off + 2))
  have h3 := h (getBit b (off + 3))
  have h4 := h (getBit b (off + 4))
  have h5 := h (getBit b (off + 5))
  have h6 := h (getBit b (off + 6))
  have h7 := h (getBit b (off + 7))
  omega

/-- Extraction of one byte only looks at the 8 bits it packs. -/
lemma extractByte_congr (b b2 : Bitrow) (off : Nat)
    (h : ∀ j, j < 8 → getBit b2 (off + j) = getBit b (off + j)) :
    extractByte b2 off = extractByte b off := by
  unfold extractByte
  have h0 := h 0 (by omega)
  have h1 := h 1 (by omega)
  have h2 := h 2 (by omega)
  have h3 := h 3 (by omega)
  have h4 := h 4 (by omega)
  have h5 := h 5 (by omega)
  have h6 := h 6 (by omega)
  have h7 := h 7 (by omega)
  simp only [Nat.add_zero] at h0
  rw [h0, h1, h2, h3, h4, h5, h6, h7]

/-- Characterization of a pattern match at one position. -/
lemma matchAt_iff (b : Bitrow) (pat : List Bool) (i : Nat) :
    matchAt b pat i = true ↔
      i + pat.length ≤ b.bits ∧
        ∀ j, j < pat.length → getBit b (i + j) = pat.getD j false := by
  simp [matchAt, List.all_eq_true, List.mem_range, beq_iff_eq]

/-- A pattern reaching past the end of the row never matches. -/
lemma matchAt_oob (b : Bitrow) (pat : List Bool) (i : Nat) (h : b.bits < i + pat.length) :
    matchAt b pat i = false := by
  rw [← Bool.not_eq_true, matchAt_iff]
  intro hc
  omega

/-- A match only depends on the bits the pattern overlaps. -/
lemma matchAt_congr (b b2 : Bitrow) (pat : List Bool) (i : Nat)
    (hbits : b2.bits = b.bits)
    (h : ∀ j, i ≤ j → j < i + pat.length → getBit b2 j = getBit b j) :
    matchAt b2 pat i = matchAt b pat i := by
  rcases Bool.eq_false_or_eq_true (matchAt b pat i) with hb | hb
  · rw [hb, matchAt_iff]
    rw [matchAt_iff] at hb
    refine ⟨by omega, fun j hj => ?_⟩
    rw [h (i + j) (by omega) (by omega)]
    exact hb.2 j hj
  · rw [hb, Bool.eq_false_iff]
    rw [Bool.eq_false_iff] at hb
    intro hc
    apply hb
    rw [matchAt_iff] at hc ⊢
    refine ⟨by omega, fun j hj => ?_⟩
    rw [← h (i + j) (by omega) (by omega)]
    exact hc.2 j hj

/-! Characterization of the left-to-right search. -/

/-- The search result never exceeds the bit count. -/
lemma searchGo_le_length (b : Bitrow) (pat : List Bool) :
    ∀ fuel i, searchGo b pat fuel i ≤ b.bits := by
  intro fuel
  induction fuel with
  | zero => intro i; simp [searchGo]
  | succ n ih =>
    intro i
    unfold searchGo
    split_ifs with h1 h2
    · exact Nat.le_refl _
    · omega
    · exact ih (i + 1)

/-- No position strictly before the search result matches. -/
lemma searchGo_min (b : Bitrow) (pat : List Bool) :
    ∀ fuel i q, b.bits ≤ i + fuel → i ≤ q → q < searchGo b pat fuel i →
      matchAt b pat q = false := by
  intro fuel
  induction fuel with
  | zero => intro i q hf hiq hlt; simp [searchGo] at hlt; omega
  | succ n ih =>
    intro i q hf hiq hlt
    unfold searchGo at hlt
    split_ifs at hlt with h1 h2
    · omega
    · omega
    · rcases Nat.eq_or_lt_of_le hiq with rfl | hq
      · exact Bool.of_not_eq_true (by simp [h2])
      · exact ih (i + 1) q (by omega) (by omega) hlt

/-- When the search does not answer the bit count, it answers a match. -/
lemma searchGo_match (b : Bitrow) (pat : List Bool) :
    ∀ fuel i, b.bits ≤ i + fuel → searchGo b pat fuel i ≠ b.bits →
      matchAt b pat (searchGo b pat fuel i) = true := by
  intro fuel
  induction fuel with
  | zero => intro i hf hne; simp [searchGo] at hne
  | succ n ih =>
    intro i hf hne
    simp only [searchGo] at hne ⊢
    by_cases h1 : b.bits ≤ i
    · rw [if_pos h1] at hne
      exact absurd rfl hne
    · rw [if_neg h1] at hne ⊢
      by_cases h2 : matchAt b pat i = true
      · rw [if_pos h2] at hne ⊢
        exact h2
      · rw [if_neg h2] at hne ⊢
        exact ih (i + 1) (by omega) hne

/-- With enough fuel, the search answers at most any matching position at or
after its start. -/
lemma searchGo_le_of_match (b : Bitrow) (pat : List Bool) :
    ∀ fuel i q, b.bits ≤ i + fuel → i ≤ q → matchAt b pat q = true →
      searchGo b pat fuel i ≤ q := by
  intro fuel
  induction fuel with
  | zero =>
    intro i q hf hiq hm
    simp only [searchGo]
    omega
  | succ n ih =>
    intro i q hf hiq hm
    simp only [searchGo]
    split_ifs with h1 h2
    · omega
    · exact hiq
    · rcases Nat.eq_or_lt_of_le hiq with rfl | hq
      · rw [hm] at h2; simp at h2
      · exact ih (i + 1) q (by omega) (by omega) hm

/-- The search answer is never strictly before its start position, except
when it is the bit count. -/
lemma searchGo_ge (b : Bitrow) (pat : List Bool) :
    ∀ fuel i, searchGo b pat fuel i = b.bits ∨ i ≤ searchGo b pat fuel i := by
  intro fuel
  induction fuel with
  | zero => intro i; left; simp [searchGo]
  | succ n ih =>
    intro i
    simp only [searchGo]
    split_ifs with h1 h2
    · left; rfl
    · right; exact Nat.le_refl i
    · rcases ih (i + 1) with h | h
      · left; exact h
      · right; omega

/-- When a position matches and no earlier one does, the search answers it. -/
lemma searchGo_eq_of_match (b : Bitrow) (pat : List Bool)
    (fuel i o : Nat) (hp : 0 < pat.length) (hf : b.bits ≤ i + fuel)
    (hio : i ≤ o) (hm : matchAt b pat o = true)
    (hmin : ∀ q, i ≤ q → q < o → matchAt b pat q = false) :
    searchGo b pat fuel i = o := by
  have holt : o < b.bits := by
    have := ((matchAt_iff b pat o).mp hm).1
    omega
  have hle := searchGo_le_of_match b pat fuel i o hf hio hm
  by_contra hne
  have hlt : searchGo b pat fuel i < o := by omega
  rcases searchGo_ge b pat fuel i with hg | hg
  · omega
  · have hres : searchGo b pat fuel i ≠ b.bits := by omega
    have hmatch := searchGo_match b pat fuel i hf hres
    rw [hmin (searchGo b pat fuel i) hg hlt] at hmatch
    simp at hmatch

/-- When no position matches, the search answers the bit count. -/
lemma searchGo_eq_length (b : Bitrow) (pat : List Bool) :
    ∀ fuel i, (∀ q, i ≤ q → matchAt b pat q = false) → searchGo b pat fuel i = b.bits := by
  intro fuel
  induction fuel with
  | zero => intro i h; simp [searchGo]
  | succ n ih =>
    intro i h
    unfold searchGo
    split_ifs with h1 h2
    · rfl
    · rw [h i (Nat.le_refl i)] at h2; simp at h2
    · exact ih (i + 1) fun q hq => h q (by omega)

/-! Characterization of the decode pipeline. -/

/-- The searched preamble pattern is the full 24 bits of the preamble bytes. -/
def preamble_pattern : List Bool := (bytesToBits preamble).take AOK5055_MESSAGE_PREAMBLELEN

/-- The preamble pattern has 24 bits. -/
lemma preamble_pattern_length : preamble_pattern.length = 24 := by decide

/-- The search of the callback in terms of the scanning function. -/
lemma bitbuffer_search_eq (b : Bitrow) :
    bitbuffer_search b preamble AOK5055_MESSAGE_PREAMBLELEN =
      searchGo b preamble_pattern (b.bits + 1) 0 := rfl

/-- The consensus loop succeeds exactly when frame 0 agrees with every
repeat on every byte position except the last one of a frame. -/
lemma consensus_iff (bytes : List Nat) :
    consensus_check bytes = true ↔
      ∀ pos, pos < 11 → ∀ rep, 1 ≤ rep → rep ≤ 3 →
        bytes.getD pos 0 = bytes.getD (pos + 12 * rep) 0 := by
  show ((List.range (AOK5055_MESSAGE_LEN - 1)).all fun position =>
      (List.range (AOK5055_MINREPEATS - 1)).all fun rep =>
        bytes.getD position 0 == bytes.getD (position + AOK5055_MESSAGE_LEN * (rep + 1)) 0) = true ↔ _
  rw [List.all_eq_true]
  constructor
  · intro h pos hpos rep h1 h3
    have hmem : pos ∈ List.range (AOK5055_MESSAGE_LEN - 1) := by
      rw [List.mem_range]; norm_num [AOK5055_MESSAGE_LEN]; exact hpos
    have h2 := h pos hmem
    rw [List.all_eq_true] at h2
    have hmem2 : rep - 1 ∈ List.range (AOK5055_MINREPEATS - 1) := by
      rw [List.mem_range]; norm_num [AOK5055_MINREPEATS]; omega
    have h4 := h2 (rep - 1) hmem2
    rw [beq_iff_eq] at h4
    have he : rep - 1 + 1 = rep := by omega
    rw [he] at h4
    show bytes.getD pos 0 = bytes.getD (pos + 12 * rep) 0
    convert h4 using 3
  · intro h pos hmem
    rw [List.all_eq_true]
    intro rep hmem2
    rw [List.mem_range] at hmem hmem2
    rw [beq_iff_eq]
    have := h pos (by norm_num [AOK5055_MESSAGE_LEN] at hmem; omega)
      (rep + 1) (by omega) (by norm_num [AOK5055_MINREPEATS] at hmem2; omega)
    convert this using 3

/-- Success characterization of the decode stage on the inverted row. -/
lemma decode_eq_success_iff (b : Bitrow) (r : Reading) :
    renkforce_aok5055_decode b = .success r ↔
      bitbuffer_search b preamble AOK5055_MESSAGE_PREAMBLELEN ≠ b.bits ∧
      bitbuffer_search b preamble AOK5055_MESSAGE_PREAMBLELEN +
        AOK5055_MINREPEATS * AOK5055_MESSAGE_LEN * 8 ≤ b.bits ∧
      consensus_check (aligned_bytes b) = true ∧
      r = make_reading (aligned_bytes b) := by
  simp only [renkforce_aok5055_decode]
  split_ifs with h1 h2 h3
  · simp [h1]
  · constructor
    · intro h; cases h
    · intro h; omega
  · constructor
    · intro h
      injection h with h
      exact ⟨h1, by omega, h3, h.symm⟩
    · intro h
      rw [h.2.2.2]
  · constructor
    · intro h; cases h
    · intro h
      exact absurd h.2.2.1 h3

/-- The preamble-not-found outcome occurs exactly when the search answers
the bit count. -/
lemma decode_eq_preambleNotFound_iff (b : Bitrow) :
    renkforce_aok5055_decode b = .preambleNotFound ↔
      bitbuffer_search b preamble AOK5055_MESSAGE_PREAMBLELEN = b.bits := by
  simp only [renkforce_aok5055_decode]
  split_ifs with h1 h2 h3 <;> simp [h1]

/-- The insufficient-data outcome occurs exactly on a found preamble with a
row too short for the required repeats. -/
lemma decode_eq_insufficientData_iff (b : Bitrow) :
    renkforce_aok5055_decode b = .insufficientData ↔
      bitbuffer_search b preamble AOK5055_MESSAGE_PREAMBLELEN ≠ b.bits ∧
      bitbuffer_search b preamble AOK5055_MESSAGE_PREAMBLELEN +
        AOK5055_MINREPEATS * AOK5055_MESSAGE_LEN * 8 > b.bits := by
  simp only [renkforce_aok5055_decode]
  split_ifs with h1 h2 h3
  · simp [h1]
  · simp [h1, h2]
  · simp [h1, h2]
  · simp [h1, h2]

/-! Stability of the pipeline under changes outside the compared bytes. -/

/-- Pointwise agreement of rows transfers through the inversion. -/
lemma invert_agree (row row2 : Bitrow) (hlen : row2.data.length = row.data.length)
    (P : Nat → Prop)
    (h : ∀ i, P i → getBit row2 i = getBit row i) :
    ∀ i, P i → getBit (bitbuffer_invert row2) i = getBit (bitbuffer_invert row) i := by
  intro i hp
  by_cases hi : i < 8 * row.data.length
  · rw [getBit_invert row2 i (by omega), getBit_invert row i hi, h i hp]
  · rw [getBit_oob _ i (by rw [bitbuffer_invert_data_length]; omega),
      getBit_oob _ i (by rw [bitbuffer_invert_data_length]; omega)]

/-- The search result is unchanged when the two rows have the same bit count
and agree on all bits up to 24 past the offset found in the first row. -/
lemma search_stable (v v2 : Bitrow) (hbits : v2.bits = v.bits)
    (hne : bitbuffer_search v preamble AOK5055_MESSAGE_PREAMBLELEN ≠ v.bits)
    (hagree : ∀ j, j < bitbuffer_search v preamble AOK5055_MESSAGE_PREAMBLELEN + 24 →
      getBit v2 j = getBit v j) :
    bitbuffer_search v2 preamble AOK5055_MESSAGE_PREAMBLELEN =
      bitbuffer_search v preamble AOK5055_MESSAGE_PREAMBLELEN := by
  rw [bitbuffer_search_eq] at hne hagree ⊢
  rw [bitbuffer_search_eq]
  have hfuel : v.bits ≤ 0 + (v.bits + 1) := by omega
  have hm : matchAt v preamble_pattern (searchGo v preamble_pattern (v.bits + 1) 0) = true :=
    searchGo_match v preamble_pattern (v.bits + 1) 0 hfuel hne
  have hmin : ∀ q, q < searchGo v preamble_pattern (v.bits + 1) 0 →
      matchAt v preamble_pattern q = false := fun q hq =>
    searchGo_min v preamble_pattern (v.bits + 1) 0 q hfuel (Nat.zero_le q) hq
  have hcongr : ∀ q, q ≤ searchGo v preamble_pattern (v.bits + 1) 0 →
      matchAt v2 preamble_pattern q = matchAt v preamble_pattern q := by
    intro q hq
    apply matchAt_congr _ _ _ _ hbits
    intro j hj1 hj2
    apply hagree
    rw [preamble_pattern_length] at hj2
    omega
  rw [hbits]
  apply searchGo_eq_of_match
  · rw [preamble_pattern_length]; omega
  · omega
  · exact Nat.zero_le _
  · rw [hcongr _ (Nat.le_refl _)]; exact hm
  · intro q hq1 hq2
    rw [hcongr q (by omega)]
    exact hmin q hq2

/-- Extraction of a byte other than the trailing byte of a frame is not
affected by changes confined to the trailing-byte bit ranges. -/
lemma extract_stable (v v2 : Bitrow) (o : Nat)
    (hagree : ∀ j, j < o + 384 →
      (∀ rep, rep < 4 → ¬(o + 96 * rep + 88 ≤ j ∧ j < o + 96 * rep + 96)) →
      getBit v2 j = getBit v j)
    (k : Nat) (hk : k < 48) (hk11 : k % 12 ≠ 11) :
    extractByte v2 (o + 8 * k) = extractByte v (o + 8 * k) := by
  apply extractByte_congr
  intro j hj
  apply hagree
  · omega
  · intro rep hrep hc
    omega

/-- Element access of the aligned packet bytes. -/
lemma aligned_bytes_getD (v : Bitrow) (k : Nat) (hk : k < 48) :
    (aligned_bytes v).getD k 0 =
      extractByte v (bitbuffer_search v preamble AOK5055_MESSAGE_PREAMBLELEN + 8 * k) := by
  unfold aligned_bytes
  apply extract_getD
  norm_num [AOK5055_MESSAGE_LEN, AOK5055_MINREPEATS]
  exact hk

/-- Every aligned packet byte is a byte value. -/
lemma aligned_bytes_lt (v : Bitrow) (k : Nat) : (aligned_bytes v).getD k 0 < 256 := by
  by_cases hk : k < 48
  · rw [aligned_bytes_getD v k hk]
    exact extractByte_lt _ _
  · rw [getD_oob]
    · omega
    · unfold aligned_bytes bitbuffer_extract_bytes
      rw [List.length_map, List.length_range]
      norm_num [AOK5055_MESSAGE_LEN, AOK5055_MINREPEATS]
      omega

/-! Arithmetic bridges between the C bit operations and their plain
arithmetic readings. -/

set_option maxRecDepth 4000 in
/-- Masking a byte with 0x0f takes the low nibble. -/
lemma land_0x0f : ∀ n, n < 256 → n &&& 0x0f = n % 16 := by decide

set_option maxRecDepth 4000 in
/-- The C battery test on the high nibble in arithmetic form. -/
lemma land_0xf0 : ∀ n, n < 256 → ((n &&& 0xf0) == 0xf0) = decide (n / 16 = 15) := by decide

set_option maxRecDepth 40000 in
/-- Shifting a nibble left by 8 and oring a byte is plain arithmetic. -/
lemma shiftl8_lor : ∀ m, m < 16 → ∀ n, n < 256 → (m <<< 8) ||| n = m * 256 + n := by decide

set_option maxRecDepth 40000 in
/-- Shifting a byte left by 4 and oring a nibble is plain arithmetic. -/
lemma shiftl4_lor : ∀ a, a < 256 → ∀ c, c < 16 → (a <<< 4) ||| c = a * 16 + c := by decide

/-- Shifting right by 4 divides by 16. -/
lemma shiftr4 (n : Nat) : n >>> 4 = n / 16 := by
  rw [Nat.shiftRight_eq_div_pow]

/-! Evaluation of the hex rendering. -/

/-- No hex digit character is the NUL terminator. -/
lemma hexDigit_ne_nul (n : Nat) : hexDigit n ≠ Char.ofNat 0 := by
  unfold hexDigit
  by_cases h : n < 16
  · interval_cases n <;> decide
  · rw [getD_oob]
    · decide
    · have : ("0123456789ABCDEF".toList).length = 16 := by decide
      omega

/-- Boolean form of the NUL freeness of hex digits. -/
lemma hexDigit_bne_nul (n : Nat) : (hexDigit n != Char.ofNat 0) = true := by
  simp [bne_iff_ne]
  exact hexDigit_ne_nul n

/-- The colon separator is not the NUL terminator. -/
lemma colon_bne_nul : ((':' : Char) != Char.ofNat 0) = true := by decide

/-- The NUL terminator stops the C string. -/
lemma nul_bne_nul : ((Char.ofNat 0 : Char) != Char.ofNat 0) = false := by decide

/-- The bytes_tohex loop for the decoder's call geometry: 13 iterations run
(the 13th writes at offsets 36 to 38) and the loop then stops with the
write pointer at offset 36. -/
lemma tohexGo_18_37 (inp : List Nat) :
    tohexGo inp 18 37 (18 + 1) 0 (fun _ => '?') =
      ((tohexStep inp (tohexStep inp (tohexStep inp (tohexStep inp (tohexStep inp (tohexStep inp (tohexStep inp (tohexStep inp (tohexStep inp (tohexStep inp (tohexStep inp (tohexStep inp (tohexStep inp (fun _ => '?') 0) 1) 2) 3) 4) 5) 6) 7) 8) 9) 10) 11) 12), 36) := rfl

/-- The string bytes_tohex produces for the decoder's call: exactly the 12
bytes of frame 0 as colon-separated uppercase hex pairs; the NUL written at
offset 35 cuts off everything the 13th iteration wrote. -/
lemma bytes_tohex_18_37 (inp : List Nat) :
    bytes_tohex inp 18 37 =
      String.mk
      [hexDigit ((inp.getD 0 0 >>> 4) &&& 0xF),
       hexDigit (inp.getD 0 0 &&& 0xF),
       ':',
       hexDigit ((inp.getD 1 0 >>> 4) &&& 0xF),
       hexDigit (inp.getD 1 0 &&& 0xF),
       ':',
       hexDigit ((inp.getD 2 0 >>> 4) &&& 0xF),
       hexDigit (inp.getD 2 0 &&& 0xF),
       ':',
       hexDigit ((inp.getD 3 0 >>> 4) &&& 0xF),
       hexDigit (inp.getD 3 0 &&& 0xF),
       ':',
       hexDigit ((inp.getD 4 0 >>> 4) &&& 0xF),
       hexDigit (inp.getD 4 0 &&& 0xF),
       ':',
       hexDigit ((inp.getD 5 0 >>> 4) &&& 0xF),
       hexDigit (inp.getD 5 0 &&& 0xF),
       ':',
       hexDigit ((inp.getD 6 0 >>> 4) &&& 0xF),
       hexDigit (inp.getD 6 0 &&& 0xF),
       ':',
       hexDigit ((inp.getD 7 0 >>> 4) &&& 0xF),
       hexDigit (inp.getD 7 0 &&& 0xF),
       ':',
       hexDigit ((inp.getD 8 0 >>> 4) &&& 0xF),
       hexDigit (inp.getD 8 0 &&& 0xF),
       ':',
       hexDigit ((inp.getD 9 0 >>> 4) &&& 0xF),
       hexDigit (inp.getD 9 0 &&& 0xF),
       ':',
       hexDigit ((inp.getD 10 0 >>> 4) &&& 0xF),
       hexDigit (inp.getD 10 0 &&& 0xF),
       ':',
       hexDigit ((inp.getD 11 0 >>> 4) &&& 0xF),
       hexDigit (inp.getD 11 0 &&& 0xF)] := by
  unfold bytes_tohex
  rw [tohexGo_18_37 inp]
  simp only [bufSet, tohexStep, List.takeWhile, List.map, List.range]
  norm_num [hexDigit_bne_nul, colon_bne_nul, nul_bne_nul]

/-- Evaluation of the spec-side rendering on 12 bytes. -/
lemma spec_hex_render_12 (b0 b1 b2 b3 b4 b5 b6 b7 b8 b9 b10 b11 : Nat) :
    spec_hex_render [b0, b1, b2, b3, b4, b5, b6, b7, b8, b9, b10, b11] =
      String.mk
      [hexDigit (b0 / 16),
       hexDigit (b0 % 16),
       ':',
       hexDigit (b1 / 16),
       hexDigit (b1 % 16),
       ':',
       hexDigit (b2 / 16),
       hexDigit (b2 % 16),
       ':',
       hexDigit (b3 / 16),
       hexDigit (b3 % 16),
       ':',
       hexDigit (b4 / 16),
       hexDigit (b4 % 16),
       ':',
       hexDigit (b5 / 16),
       hexDigit (b5 % 16),
       ':',
       hexDigit (b6 / 16),
       hexDigit (b6 % 16),
       ':',
       hexDigit (b7 / 16),
       hexDigit (b7 % 16),
       ':',
       hexDigit (b8 / 16),
       hexDigit (b8 % 16),
       ':',
       hexDigit (b9 / 16),
       hexDigit (b9 % 16),
       ':',
       hexDigit (b10 / 16),
       hexDigit (b10 % 16),
       ':',
       hexDigit (b11 / 16),
       hexDigit (b11 % 16)] := by
  unfold spec_hex_render
  simp [List.intersperse]

/-- The high hex digit of a byte in arithmetic form. -/
lemma hexDigit_hi (b : Nat) (h : b < 256) :
    hexDigit ((b >>> 4) &&& 0xF) = hexDigit (b / 16) := by
  rw [shiftr4, land_0x0f (b / 16) (by omega), Nat.mod_eq_of_lt (by omega)]

/-- The low hex digit of a byte in arithmetic form. -/
lemma hexDigit_lo (b : Nat) (h : b < 256) :
    hexDigit (b &&& 0xF) = hexDigit (b % 16) := by
  rw [land_0x0f b h]

/-- The aligned packet bytes as a mapped range. -/
lemma aligned_bytes_eq (v : Bitrow) :
    aligned_bytes v = (List.range 48).map fun k =>
      extractByte v (bitbuffer_search v preamble AOK5055_MESSAGE_PREAMBLELEN + 8 * k) := rfl

/-! Projections of the emitted record. -/

/-- The model field of the emitted record. -/
lemma make_reading_model (bytes : List Nat) :
    (make_reading bytes).model = "Renkforce AOK5055" := rfl

/-- The temperature field of the emitted record. -/
lemma make_reading_temperature (bytes : List Nat) :
    (make_reading bytes).temperature =
      (((((bytes.getD 4 0 &&& 0x0f) <<< 8) ||| bytes.getD 5 0 : Nat) : ℚ) / 10) := rfl

/-- The humidity field of the emitted record. -/
lemma make_reading_humidity (bytes : List Nat) :
    (make_reading bytes).humidity = bytes.getD 6 0 := rfl

/-- The wind direction label of the emitted record. -/
lemma make_reading_wind_direction (bytes : List Nat) :
    (make_reading bytes).wind_direction =
      direction_lookup.getD (bytes.getD 9 0 &&& 0x0f) "" := rfl

/-- The wind degrees field of the emitted record. -/
lemma make_reading_wind_degrees (bytes : List Nat) :
    (make_reading bytes).wind_degrees =
      (((bytes.getD 9 0 &&& 0x0f : Nat) : ℚ) * (45 / 2)) := rfl

/-- The wind speed field of the emitted record. -/
lemma make_reading_wind_speed (bytes : List Nat) :
    (make_reading bytes).wind_speed =
      ((bytes.getD 8 0 &&& 0x0f) <<< 8) ||| (bytes.getD 9 0 >>> 4) := rfl

/-- The rain volume field of the emitted record. -/
lemma make_reading_rain_volume (bytes : List Nat) :
    (make_reading bytes).rain_volume =
      ((((bytes.getD 7 0 <<< 4) ||| (bytes.getD 8 0 >>> 4) : Nat) : ℚ) *
        AOK5055_MILLIMETER_PER_STEP) := rfl

/-- The battery field of the emitted record. -/
lemma make_reading_battery (bytes : List Nat) :
    (make_reading bytes).battery =
      (if (bytes.getD 4 0 &&& 0xf0) == 0xf0 then "LOW" else "OK") := rfl

/-- The raw field of the emitted record. -/
lemma make_reading_raw (bytes : List Nat) :
    (make_reading bytes).raw = bytes_tohex bytes 18 37 := rfl

/-! Claim theorems and their witnesses. -/

/-- The outcome of the callback is the decode of the inverted row. -/
lemma callback_snd (row : Bitrow) :
    (renkforce_aok5055_callback row).2 = renkforce_aok5055_decode (bitbuffer_invert row) := rfl

/-- A non-success outcome is returned as the C int 0. -/
lemma toInt_eq_zero (d : DecodeResult) (h : ∀ r : Reading, d ≠ .success r) :
    d.toInt = 0 := by
  cases d with
  | success r => exact absurd rfl (h r)
  | preambleNotFound => rfl
  | insufficientData => rfl
  | repeatMismatch => rfl

/-- On success the aligned bytes satisfy the consensus equalities. -/
lemma success_consensus (row : Bitrow) (r : Reading)
    (hs : (renkforce_aok5055_callback row).2 = .success r) :
    ∀ pos, pos < 11 → ∀ rep, 1 ≤ rep → rep ≤ 3 →
      (aligned_bytes (bitbuffer_invert row)).getD pos 0 =
        (aligned_bytes (bitbuffer_invert row)).getD (pos + 12 * rep) 0 := by
  rw [callback_snd] at hs
  have hd := (decode_eq_success_iff (bitbuffer_invert row) r).mp hs
  exact (consensus_iff _).mp hd.2.2.1

set_option maxRecDepth 100000 in
/-- The example capture decodes to the documented Reading. -/
lemma callback_good : (renkforce_aok5055_callback capture_good).2 = .success reading_good := rfl

/-- C1: a Reading is emitted (and the decode call returns success) only if
the repeat consensus check passes: for every byte position 0..10 of the
frame and every repeat index 1..MIN_REPEATS-1 = 3 (MIN_REPEATS = 4), frame
0's byte equals that repeat's byte at that position; if any such pair
differs, the call returns a non-success result (the C int 0) and emits no
Reading at all. -/
theorem aok5055_consensus_gate (row : Bitrow) :
    (∀ r : Reading, (renkforce_aok5055_callback row).2 = .success r →
      ∀ pos, pos < 11 → ∀ rep, 1 ≤ rep → rep ≤ 3 →
        (aligned_bytes (bitbuffer_invert row)).getD pos 0 =
          (aligned_bytes (bitbuffer_invert row)).getD (pos + 12 * rep) 0)
  ∧ ((∃ pos, pos < 11 ∧ ∃ rep, 1 ≤ rep ∧ rep ≤ 3 ∧
        (aligned_bytes (bitbuffer_invert row)).getD pos 0 ≠
          (aligned_bytes (bitbuffer_invert row)).getD (pos + 12 * rep) 0) →
      (∀ r : Reading, (renkforce_aok5055_callback row).2 ≠ .success r) ∧
        ((renkforce_aok5055_callback row).2).toInt = 0) := by
  constructor
  · exact fun r hs => success_consensus row r hs
  · rintro ⟨pos, hpos, rep, h1, h2, hne⟩
    have hns : ∀ r : Reading, (renkforce_aok5055_callback row).2 ≠ .success r := by
      intro r hs
      exact hne (success_consensus row r hs pos hpos rep h1 h2)
    exact ⟨hns, toInt_eq_zero _ hns⟩

set_option maxRecDepth 100000 in
/-- Byte 3 of repeat 2 disagrees with frame 0 on the corrupted capture. -/
lemma mismatch_byte_ne : (aligned_bytes (bitbuffer_invert capture_mismatch)).getD 3 0 ≠
    (aligned_bytes (bitbuffer_invert capture_mismatch)).getD (3 + 12 * 2) 0 := by decide

/-- Witness for C1: on the example capture the decode succeeds and byte 3
of frame 0 agrees with byte 3 of repeat 1; on the capture whose repeat 2
differs in byte 3 the callback emits no Reading and returns 0. -/
theorem aok5055_consensus_gate_witness :
    ((aligned_bytes (bitbuffer_invert capture_good)).getD 3 0 =
      (aligned_bytes (bitbuffer_invert capture_good)).getD (3 + 12 * 1) 0) ∧
    (∀ r : Reading, (renkforce_aok5055_callback capture_mismatch).2 ≠ .success r) ∧
    ((renkforce_aok5055_callback capture_mismatch).2).toInt = 0 := by
  have h2 := (aok5055_consensus_gate capture_mismatch).2
    ⟨3, by norm_num, 2, by norm_num, by norm_num, mismatch_byte_ne⟩
  exact ⟨(aok5055_consensus_gate capture_good).1 reading_good callback_good 3 (by norm_num) 1
    (by norm_num) (by norm_num), h2.1, h2.2⟩

/-- C3: if the preamble does not occur anywhere in the row after the
unconditional polarity inversion (every stored bit flipped exactly once
before searching), the decode call returns the distinct preamble-not-found
outcome (the C int 0) and emits no Reading; and the search is a single
left-to-right pass answering the earliest matching bit offset whenever the
preamble does occur. -/
theorem aok5055_preamble_not_found (row : Bitrow) :
    ((bitbuffer_invert row).bits = row.bits ∧
      ∀ i, i < 8 * row.data.length →
        getBit (bitbuffer_invert row) i = !(getBit row i))
  ∧ ((∀ i, i < row.bits → matchAt (bitbuffer_invert row) preamble_pattern i = false) →
      (renkforce_aok5055_callback row).2 = .preambleNotFound ∧
      ((renkforce_aok5055_callback row).2).toInt = 0)
  ∧ (∀ i, matchAt (bitbuffer_invert row) preamble_pattern i = true →
      matchAt (bitbuffer_invert row) preamble_pattern
        (bitbuffer_search (bitbuffer_invert row) preamble AOK5055_MESSAGE_PREAMBLELEN) = true ∧
      bitbuffer_search (bitbuffer_invert row) preamble AOK5055_MESSAGE_PREAMBLELEN ≤ i) := by
  have hb : (bitbuffer_invert row).bits = row.bits := rfl
  refine ⟨⟨hb, fun i hi => getBit_invert row i hi⟩, ?_, ?_⟩
  · intro h
    have hall : ∀ q, 0 ≤ q → matchAt (bitbuffer_invert row) preamble_pattern q = false := by
      intro q hq
      by_cases hqb : q < row.bits
      · exact h q hqb
      · apply matchAt_oob
        rw [hb, preamble_pattern_length]
        omega
    have hpnf : (renkforce_aok5055_callback row).2 = .preambleNotFound := by
      rw [callback_snd, decode_eq_preambleNotFound_iff, bitbuffer_search_eq]
      exact searchGo_eq_length _ _ _ 0 hall
    exact ⟨hpnf, by rw [hpnf]; rfl⟩
  · intro i hm
    have hi : i + 24 ≤ (bitbuffer_invert row).bits := by
      have := ((matchAt_iff _ _ _).mp hm).1
      rwa [preamble_pattern_length] at this
    rw [bitbuffer_search_eq]
    have hfuel : (bitbuffer_invert row).bits ≤ 0 + ((bitbuffer_invert row).bits + 1) := by omega
    have hle := searchGo_le_of_match (bitbuffer_invert row) preamble_pattern
      ((bitbuffer_invert row).bits + 1) 0 i hfuel (Nat.zero_le i) hm
    have hne : searchGo (bitbuffer_invert row) preamble_pattern
        ((bitbuffer_invert row).bits + 1) 0 ≠ (bitbuffer_invert row).bits := by
      omega
    exact ⟨searchGo_match _ _ _ 0 hfuel hne, hle⟩

/-- Witness for C3: a 30-bit all-mark capture has no preamble after the
inversion and yields the preamble-not-found outcome; a capture whose
inversion holds the preamble at bit 8 is found there by the left-to-right
search. -/
theorem aok5055_preamble_not_found_witness :
    ((renkforce_aok5055_callback capture_nopre).2 = .preambleNotFound ∧
      ((renkforce_aok5055_callback capture_nopre).2).toInt = 0) ∧
    (matchAt (bitbuffer_invert capture_at8) preamble_pattern
      (bitbuffer_search (bitbuffer_invert capture_at8) preamble AOK5055_MESSAGE_PREAMBLELEN)
        = true ∧
     bitbuffer_search (bitbuffer_invert capture_at8) preamble AOK5055_MESSAGE_PREAMBLELEN ≤ 8) :=
  ⟨(aok5055_preamble_not_found capture_nopre).2.1 (by decide),
    (aok5055_preamble_not_found capture_at8).2.2 8 (by decide)⟩

/-- C4: once the preamble is found at some offset, decoding proceeds only
when offset + MIN_REPEATS * FRAME_LEN_BITS (4 * 96 bits) fits inside the
row; otherwise the call returns the insufficient-data outcome (the C int 0)
and emits no Reading. -/
theorem aok5055_length_check (row : Bitrow)
    (hfound : bitbuffer_search (bitbuffer_invert row) preamble AOK5055_MESSAGE_PREAMBLELEN ≠
      row.bits) :
    (bitbuffer_search (bitbuffer_invert row) preamble AOK5055_MESSAGE_PREAMBLELEN +
        AOK5055_MINREPEATS * AOK5055_MESSAGE_LEN * 8 > row.bits →
      (renkforce_aok5055_callback row).2 = .insufficientData ∧
      ((renkforce_aok5055_callback row).2).toInt = 0)
  ∧ (bitbuffer_search (bitbuffer_invert row) preamble AOK5055_MESSAGE_PREAMBLELEN +
        AOK5055_MINREPEATS * AOK5055_MESSAGE_LEN * 8 ≤ row.bits →
      (renkforce_aok5055_callback row).2 ≠ .preambleNotFound ∧
      (renkforce_aok5055_callback row).2 ≠ .insufficientData) := by
  have hb : (bitbuffer_invert row).bits = row.bits := rfl
  constructor
  · intro hgt
    have hi : (renkforce_aok5055_callback row).2 = .insufficientData := by
      rw [callback_snd, decode_eq_insufficientData_iff, hb]
      exact ⟨hfound, hgt⟩
    exact ⟨hi, by rw [hi]; rfl⟩
  · intro hle
    constructor
    · intro hc
      rw [callback_snd, decode_eq_preambleNotFound_iff, hb] at hc
      exact hfound hc
    · intro hc
      rw [callback_snd, decode_eq_insufficientData_iff, hb] at hc
      omega

/-- Witness for C4: a capture holding only 3 of the 4 required repeats
after the preamble is rejected with the insufficient-data outcome. -/
theorem aok5055_length_check_witness :
    (renkforce_aok5055_callback capture_short).2 = .insufficientData ∧
    ((renkforce_aok5055_callback capture_short).2).toInt = 0 :=
  (aok5055_length_check capture_short (by decide)).1 (by decide)

/-- C5: on every successful decode the temperature is the 12-bit value made
of the low nibble of byte 4 (high 4 bits) and all of byte 5 (low 8 bits),
reported as that value divided by 10 degrees Celsius. -/
theorem aok5055_temperature_decoding (row : Bitrow) (r : Reading)
    (hs : (renkforce_aok5055_callback row).2 = .success r) :
    ∃ traw : Nat,
      traw = ((aligned_bytes (bitbuffer_invert row)).getD 4 0 % 16) * 256 +
        (aligned_bytes (bitbuffer_invert row)).getD 5 0 ∧
      traw < 4096 ∧
      r.temperature = (traw : ℚ) / 10 := by
  rw [callback_snd] at hs
  obtain ⟨-, -, -, hr⟩ := (decode_eq_success_iff _ r).mp hs
  have h4 := aligned_bytes_lt (bitbuffer_invert row) 4
  have h5 := aligned_bytes_lt (bitbuffer_invert row) 5
  refine ⟨_, rfl, by omega, ?_⟩
  rw [hr, make_reading_temperature]
  have he : ((aligned_bytes (bitbuffer_invert row)).getD 4 0 &&& 0x0f) <<< 8 |||
      (aligned_bytes (bitbuffer_invert row)).getD 5 0 =
      ((aligned_bytes (bitbuffer_invert row)).getD 4 0 % 16) * 256 +
      (aligned_bytes (bitbuffer_invert row)).getD 5 0 := by
    rw [land_0x0f _ h4]
    exact shiftl8_lor _ (by omega) _ h5
  rw [he]

/-- Witness for C5 on the example capture. -/
theorem aok5055_temperature_decoding_witness :
    ∃ traw : Nat,
      traw = ((aligned_bytes (bitbuffer_invert capture_good)).getD 4 0 % 16) * 256 +
        (aligned_bytes (bitbuffer_invert capture_good)).getD 5 0 ∧
      traw < 4096 ∧
      reading_good.temperature = (traw : ℚ) / 10 :=
  aok5055_temperature_decoding capture_good reading_good callback_good

set_option maxRecDepth 4000 in
/-- The padded compass labels match the plain 16-point compass table. -/
lemma strip_table : ∀ i, i < 16 →
    stripSpaces (direction_lookup.getD i "") = spec_direction_table.getD i "" := by decide

/-- C6: on every successful decode the direction index is the low nibble of
byte 9 (always in 0..15), the reported degrees are index times 22.5 and the
reported label is the index-th entry of the fixed 16-entry compass table
(up to the space padding of the C char arrays). -/
theorem aok5055_wind_direction_decoding (row : Bitrow) (r : Reading)
    (hs : (renkforce_aok5055_callback row).2 = .success r) :
    ∃ idx : Nat,
      idx = (aligned_bytes (bitbuffer_invert row)).getD 9 0 % 16 ∧
      idx < 16 ∧
      r.wind_direction = direction_lookup.getD idx "" ∧
      stripSpaces r.wind_direction = spec_direction_table.getD idx "" ∧
      r.wind_degrees = (idx : ℚ) * (45 / 2) := by
  rw [callback_snd] at hs
  obtain ⟨-, -, -, hr⟩ := (decode_eq_success_iff _ r).mp hs
  have h9 := aligned_bytes_lt (bitbuffer_invert row) 9
  have hland := land_0x0f ((aligned_bytes (bitbuffer_invert row)).getD 9 0) h9
  refine ⟨_, rfl, by omega, ?_, ?_, ?_⟩
  · rw [hr, make_reading_wind_direction, hland]
  · rw [hr, make_reading_wind_direction, hland]
    exact strip_table _ (by omega)
  · rw [hr, make_reading_wind_degrees, hland]

/-- Witness for C6 on the example capture. -/
theorem aok5055_wind_direction_decoding_witness :
    ∃ idx : Nat,
      idx = (aligned_bytes (bitbuffer_invert capture_good)).getD 9 0 % 16 ∧
      idx < 16 ∧
      reading_good.wind_direction = direction_lookup.getD idx "" ∧
      stripSpaces reading_good.wind_direction = spec_direction_table.getD idx "" ∧
      reading_good.wind_degrees = (idx : ℚ) * (45 / 2) :=
  aok5055_wind_direction_decoding capture_good reading_good callback_good

/-- C7: on every successful decode the Reading reports battery LOW exactly
when the high nibble of byte 4 is the sentinel 0xF, and battery OK for
every other value of that nibble. -/
theorem aok5055_battery_sentinel (row : Bitrow) (r : Reading)
    (hs : (renkforce_aok5055_callback row).2 = .success r) :
    (r.battery = "LOW" ↔ (aligned_bytes (bitbuffer_invert row)).getD 4 0 / 16 = 15) ∧
    ((aligned_bytes (bitbuffer_invert row)).getD 4 0 / 16 ≠ 15 → r.battery = "OK") := by
  rw [callback_snd] at hs
  obtain ⟨-, -, -, hr⟩ := (decode_eq_success_iff _ r).mp hs
  have h4 := aligned_bytes_lt (bitbuffer_invert row) 4
  rw [hr, make_reading_battery, land_0xf0 _ h4]
  constructor
  · constructor
    · intro hl
      by_contra hb
      rw [if_neg fun hc => hb (of_decide_eq_true hc)] at hl
      exact absurd hl (by decide)
    · intro hb
      rw [if_pos (decide_eq_true hb)]
  · intro hb
    rw [if_neg fun hc => hb (of_decide_eq_true hc)]

/-- Witness for C7 on the example capture (whose byte 4 high nibble is 0). -/
theorem aok5055_battery_sentinel_witness :
    (reading_good.battery = "LOW" ↔
      (aligned_bytes (bitbuffer_invert capture_good)).getD 4 0 / 16 = 15) ∧
    ((aligned_bytes (bitbuffer_invert capture_good)).getD 4 0 / 16 ≠ 15 →
      reading_good.battery = "OK") :=
  aok5055_battery_sentinel capture_good reading_good callback_good

/-- C8: on every successful decode the rain step count is the 12-bit value
byte7 shifted left 4 ored with the high nibble of byte 8, and the reported
rain accumulation is exactly steps times 3/4 millimeters. -/
theorem aok5055_rain_decoding (row : Bitrow) (r : Reading)
    (hs : (renkforce_aok5055_callback row).2 = .success r) :
    ∃ steps : Nat,
      steps = (aligned_bytes (bitbuffer_invert row)).getD 7 0 * 16 +
        (aligned_bytes (bitbuffer_invert row)).getD 8 0 / 16 ∧
      steps < 4096 ∧
      r.rain_volume = (steps : ℚ) * 3 / 4 := by
  rw [callback_snd] at hs
  obtain ⟨-, -, -, hr⟩ := (decode_eq_success_iff _ r).mp hs
  have h7 := aligned_bytes_lt (bitbuffer_invert row) 7
  have h8 := aligned_bytes_lt (bitbuffer_invert row) 8
  refine ⟨_, rfl, by omega, ?_⟩
  rw [hr, make_reading_rain_volume]
  have he : ((aligned_bytes (bitbuffer_invert row)).getD 7 0 <<< 4) |||
      ((aligned_bytes (bitbuffer_invert row)).getD 8 0 >>> 4) =
      (aligned_bytes (bitbuffer_invert row)).getD 7 0 * 16 +
      (aligned_bytes (bitbuffer_invert row)).getD 8 0 / 16 := by
    rw [shiftr4]
    exact shiftl4_lor _ h7 _ (by omega)
  rw [he, show AOK5055_MILLIMETER_PER_STEP = 3 / 4 from rfl]
  ring

/-- Witness for C8 on the example capture. -/
theorem aok5055_rain_decoding_witness :
    ∃ steps : Nat,
      steps = (aligned_bytes (bitbuffer_invert capture_good)).getD 7 0 * 16 +
        (aligned_bytes (bitbuffer_invert capture_good)).getD 8 0 / 16 ∧
      steps < 4096 ∧
      reading_good.rain_volume = (steps : ℚ) * 3 / 4 :=
  aok5055_rain_decoding capture_good reading_good callback_good

/-- Prefix of the range list used by the raw string. -/
lemma take_range_12 : (List.range 48).take 12 = List.range 12 := by decide

/-- C10: on every successful decode the raw field is exactly the 12 bytes
of frame 0 rendered as colon-separated uppercase hexadecimal pairs and is
exactly 35 characters long, even though bytes_tohex is invoked with an
18-byte input length: the output-size guard for the 37-byte buffer stops
the loop and the NUL terminator lands at offset 35. -/
theorem aok5055_raw_hex_string (row : Bitrow) (r : Reading)
    (hs : (renkforce_aok5055_callback row).2 = .success r) :
    r.raw = spec_hex_render ((aligned_bytes (bitbuffer_invert row)).take AOK5055_MESSAGE_LEN) ∧
    r.raw.length = 35 := by
  rw [callback_snd] at hs
  obtain ⟨-, -, -, hr⟩ := (decode_eq_success_iff _ r).mp hs
  rw [hr, make_reading_raw, bytes_tohex_18_37]
  constructor
  · rw [aligned_bytes_getD (bitbuffer_invert row) 0 (by norm_num),
      aligned_bytes_getD (bitbuffer_invert row) 1 (by norm_num),
      aligned_bytes_getD (bitbuffer_invert row) 2 (by norm_num),
      aligned_bytes_getD (bitbuffer_invert row) 3 (by norm_num),
      aligned_bytes_getD (bitbuffer_invert row) 4 (by norm_num),
      aligned_bytes_getD (bitbuffer_invert row) 5 (by norm_num),
      aligned_bytes_getD (bitbuffer_invert row) 6 (by norm_num),
      aligned_bytes_getD (bitbuffer_invert row) 7 (by norm_num),
      aligned_bytes_getD (bitbuffer_invert row) 8 (by norm_num),
      aligned_bytes_getD (bitbuffer_invert row) 9 (by norm_num),
      aligned_bytes_getD (bitbuffer_invert row) 10 (by norm_num),
      aligned_bytes_getD (bitbuffer_invert row) 11 (by norm_num)]
    rw [show AOK5055_MESSAGE_LEN = 12 from rfl, aligned_bytes_eq, ← List.map_take, take_range_12,
      show List.range 12 = [0, 1, 2, 3, 4, 5, 6, 7, 8, 9, 10, 11] from rfl]
    simp only [List.map]
    rw [spec_hex_render_12]
    simp only [hexDigit_hi, hexDigit_lo, extractByte_lt]
  · rfl

/-- Witness for C10 on the example capture. -/
theorem aok5055_raw_hex_string_witness :
    reading_good.raw =
      spec_hex_render ((aligned_bytes (bitbuffer_invert capture_good)).take AOK5055_MESSAGE_LEN) ∧
    reading_good.raw.length = 35 :=
  aok5055_raw_hex_string capture_good reading_good callback_good

/-- C9 (amended): the callback inverts the caller's bitbuffer in place, so
invoking it twice in succession on the same capture object first restores
the buffer to its original bit contents and makes the second call decode
the original, never-inverted bits; the second outcome is therefore the
decode of the raw capture contents, which in general differs from the first
call's outcome (identical outcomes are only guaranteed for calls on
value-identical fresh captures, decode being a function of the buffer). -/
theorem aok5055_double_decode (row : Bitrow) :
    (renkforce_aok5055_callback ((renkforce_aok5055_callback row).1)).1 = row ∧
    (renkforce_aok5055_callback ((renkforce_aok5055_callback row).1)).2 =
      renkforce_aok5055_decode row := by
  have h := bitbuffer_invert_invert row
  constructor
  · exact h
  · show renkforce_aok5055_decode (bitbuffer_invert (bitbuffer_invert row)) = _
    rw [h]

set_option maxRecDepth 200000 in
/-- The second call on the mutated example capture finds no preamble. -/
lemma callback_good_again :
    (renkforce_aok5055_callback ((renkforce_aok5055_callback capture_good).1)).2 =
      .preambleNotFound := by decide

/-- Counterexample to C9 as stated: on the example capture the first call
succeeds and emits a Reading while the second call on the same (mutated)
capture object returns preamble-not-found, so invoking the decode call
twice in succession on the same capture object does not yield the same
outcome both times. -/
theorem aok5055_idempotence_counterexample :
    (renkforce_aok5055_callback capture_good).2 = .success reading_good ∧
    (renkforce_aok5055_callback ((renkforce_aok5055_callback capture_good).1)).2 =
      .preambleNotFound ∧
    (renkforce_aok5055_callback ((renkforce_aok5055_callback capture_good).1)).2 ≠
      (renkforce_aok5055_callback capture_good).2 := by
  refine ⟨callback_good, callback_good_again, ?_⟩
  rw [callback_good, callback_good_again]
  simp

/-- C2: trailing-byte tolerance: for any capture that decodes successfully,
any second capture of the same geometry that differs only inside the bit
ranges of the last byte (byte 11) of each of the 4 extracted frames still
decodes successfully, and every field of the emitted Reading that does not
include byte 11 of frame 0 (all fields except raw) is identical; the last
byte of each frame is excluded from the consensus comparison. -/
theorem aok5055_trailing_byte_tolerance (row row2 : Bitrow) (r : Reading)
    (hs : (renkforce_aok5055_callback row).2 = .success r)
    (hdl : row2.data.length = row.data.length)
    (hbits : row2.bits = row.bits)
    (hagree : ∀ i, i < row.bits →
      (∀ rep, rep < 4 →
        ¬(bitbuffer_search (bitbuffer_invert row) preamble AOK5055_MESSAGE_PREAMBLELEN +
            96 * rep + 88 ≤ i ∧
          i < bitbuffer_search (bitbuffer_invert row) preamble AOK5055_MESSAGE_PREAMBLELEN +
            96 * rep + 96)) →
      getBit row2 i = getBit row i) :
    ∃ r2 : Reading, (renkforce_aok5055_callback row2).2 = .success r2 ∧
      r2.model = r.model ∧ r2.temperature = r.temperature ∧ r2.humidity = r.humidity ∧
      r2.wind_direction = r.wind_direction ∧ r2.wind_degrees = r.wind_degrees ∧
      r2.wind_speed = r.wind_speed ∧ r2.rain_volume = r.rain_volume ∧
      r2.battery = r.battery := by
  rw [callback_snd] at hs ⊢
  obtain ⟨hne, hfit, hcons, hr⟩ := (decode_eq_success_iff _ r).mp hs
  have hvb : (bitbuffer_invert row).bits = row.bits := rfl
  have hv2b : (bitbuffer_invert row2).bits = row2.bits := rfl
  have h384 : AOK5055_MINREPEATS * AOK5055_MESSAGE_LEN * 8 = 384 := rfl
  have hobound : bitbuffer_search (bitbuffer_invert row) preamble AOK5055_MESSAGE_PREAMBLELEN +
      384 ≤ row.bits := by omega
  have hag : ∀ i, (i < row.bits ∧
      ∀ rep, rep < 4 →
        ¬(bitbuffer_search (bitbuffer_invert row) preamble AOK5055_MESSAGE_PREAMBLELEN +
            96 * rep + 88 ≤ i ∧
          i < bitbuffer_search (bitbuffer_invert row) preamble AOK5055_MESSAGE_PREAMBLELEN +
            96 * rep + 96)) →
      getBit (bitbuffer_invert row2) i = getBit (bitbuffer_invert row) i :=
    invert_agree row row2 hdl _ fun i hp => hagree i hp.1 hp.2
  have hsearch2 : bitbuffer_search (bitbuffer_invert row2) preamble AOK5055_MESSAGE_PREAMBLELEN =
      bitbuffer_search (bitbuffer_invert row) preamble AOK5055_MESSAGE_PREAMBLELEN := by
    apply search_stable
    · rw [hv2b, hvb, hbits]
    · exact hne
    · intro j hj
      apply hag
      refine ⟨by omega, fun rep hrep hc => by omega⟩
  have hbyte : ∀ k, k < 48 → k % 12 ≠ 11 →
      (aligned_bytes (bitbuffer_invert row2)).getD k 0 =
        (aligned_bytes (bitbuffer_invert row)).getD k 0 := by
    intro k hk hk11
    rw [aligned_bytes_getD _ k hk, aligned_bytes_getD _ k hk, hsearch2]
    apply extract_stable
    · intro j hj hout
      apply hag
      refine ⟨by omega, fun rep hrep hc => ?_⟩
      exact (hout rep hrep) hc
    · exact hk
    · exact hk11
  have hcons2 : consensus_check (aligned_bytes (bitbuffer_invert row2)) = true := by
    rw [consensus_iff] at hcons ⊢
    intro pos hpos rep h1 h3
    rw [hbyte pos (by omega) (by omega), hbyte (pos + 12 * rep) (by omega) (by omega)]
    exact hcons pos hpos rep h1 h3
  refine ⟨make_reading (aligned_bytes (bitbuffer_invert row2)), ?_, ?_, ?_, ?_, ?_, ?_, ?_, ?_, ?_⟩
  · rw [decode_eq_success_iff]
    refine ⟨?_, ?_, hcons2, rfl⟩
    · rw [hsearch2, hv2b, hbits, ← hvb]
      exact hne
    · rw [hsearch2, hv2b, hbits]
      omega
  · rw [hr, make_reading_model, make_reading_model]
  · rw [hr, make_reading_temperature, make_reading_temperature,
      hbyte 4 (by omega) (by omega), hbyte 5 (by omega) (by omega)]
  · rw [hr, make_reading_humidity, make_reading_humidity, hbyte 6 (by omega) (by omega)]
  · rw [hr, make_reading_wind_direction, make_reading_wind_direction,
      hbyte 9 (by omega) (by omega)]
  · rw [hr, make_reading_wind_degrees, make_reading_wind_degrees,
      hbyte 9 (by omega) (by omega)]
  · rw [hr, make_reading_wind_speed, make_reading_wind_speed,
      hbyte 8 (by omega) (by omega), hbyte 9 (by omega) (by omega)]
  · rw [hr, make_reading_rain_volume, make_reading_rain_volume,
      hbyte 7 (by omega) (by omega), hbyte 8 (by omega) (by omega)]
  · rw [hr, make_reading_battery, make_reading_battery, hbyte 4 (by omega) (by omega)]

set_option maxRecDepth 100000 in
/-- The preamble offset of the example capture. -/
lemma search_good :
    bitbuffer_search (bitbuffer_invert capture_good) preamble AOK5055_MESSAGE_PREAMBLELEN = 0 := by
  decide

set_option maxRecDepth 200000 in
/-- Witness for C2: changing the pause byte of each of the 4 frames of the
example capture to the distinct values 0x13, 0x37, 0xab, 0xcd leaves the
decode successful with every field except raw unchanged. -/
theorem aok5055_trailing_byte_tolerance_witness :
    ∃ r2 : Reading,
      (renkforce_aok5055_callback capture_good_tails).2 = .success r2 ∧
      r2.model = reading_good.model ∧ r2.temperature = reading_good.temperature ∧
      r2.humidity = reading_good.humidity ∧
      r2.wind_direction = reading_good.wind_direction ∧
      r2.wind_degrees = reading_good.wind_degrees ∧
      r2.wind_speed = reading_good.wind_speed ∧
      r2.rain_volume = reading_good.rain_volume ∧
      r2.battery = reading_good.battery :=
  aok5055_trailing_byte_tolerance capture_good capture_good_tails reading_good callback_good
    (by decide) (by decide) (by simp only [search_good]; decide)
